import Mathlib

/-!
Verification development for the service worker in src/pwa/sw.js
(offline-resilience layer: request strategies, durable submission queue,
sync coordinator, cache lifecycle).

The JS source is shallowly embedded: each strategy becomes a pure Lean
function of the current cache contents and the outcome the network would
produce for this request; promise rejections (thrown errors) are the
Except.error case; awaited Cache API lookups return Option Response.
Times are Int milliseconds, as in Date.now arithmetic.
-/

set_option autoImplicit false

namespace SW

/-- Snapshot of a stored or live response: status, statusText, body text,
content type header and the date header (milliseconds, as parsed by
new Date(header).getTime()); a synthesized Response has no date header. -/
structure Response where
  status : Nat
  statusText : String
  body : String
  contentType : Option String
  date : Option Int
deriving DecidableEq

/-- JS Response.ok: status in the inclusive range 200..299. -/
def Response.ok (r : Response) : Bool :=
  200 ≤ r.status && r.status ≤ 299

/-- A cache namespace: association list from request URL to stored response.
The Cache API keeps at most one entry per request key. -/
abbrev Cache := List (String × Response)

/-- cache.match(key): first entry stored under this key, if any. -/
def cacheMatch (k : String) : Cache → Option Response
  | [] => none
  | (k₂, r) :: rest => if k₂ = k then some r else cacheMatch k rest

/-- cache.put(key, response): overwrite the entry for this key. -/
def cachePut (k : String) (r : Response) (c : Cache) : Cache :=
  (k, r) :: c.filter (fun e => decide (e.1 ≠ k))

/-- cache.delete(key): drop the entry for this key (no error when absent). -/
def cacheDelete (k : String) (c : Cache) : Cache :=
  c.filter (fun e => decide (e.1 ≠ k))

/-- Constants from the top of sw.js. -/
def CACHE_NAME : String := "sh-formu-pwa-v2.0.0"

def DATA_CACHE_NAME : String := "sh-formu-data-v1"

def OFFLINE_URL : String := "/offline.html"

def CORE_CACHE_FILES : List String :=
  ["/", "/index.html", "/manifest.json", "/offline.html"]

/-- Outcome of one network fetch: error () is a transport failure
(rejected promise); ok r is any HTTP response, 2xx or not. -/
abbrev FetchResult := Except Unit Response

/-- Result of a strategy call: the response handed to respondWith, the
cache contents afterwards, and whether fetch was invoked at all. -/
structure StrategyResult where
  resp : Response
  cache : Cache
  fetched : Bool
deriving DecidableEq

/-- Body of the synthesized offline response in networkFirstStrategy
(JSON.stringify of the object literal at sw.js lines 110-113). -/
def offlineBody : String :=
  "\x7b\"error\":\"Offline\",\"message\":\"Bu işlem için internet bağlantısı gereklidir.\"\x7d"

/-- The synthesized 503 response of networkFirstStrategy (sw.js 109-119). -/
def offlineResponse : Response :=
  { status := 503
    statusText := "Service Unavailable"
    body := offlineBody
    contentType := some "application/json"
    date := none }

/-- networkFirstStrategy (sw.js 86-121), acting on the data namespace:
try the network; any non-thrown response is returned to the caller, and
cached when ok; a thrown (transport) failure falls back to the cache,
then to the synthesized 503 response. -/
def networkFirstStrategy (req : String) (c : Cache) (fr : FetchResult) : StrategyResult :=
  match fr with
  | .ok r => ⟨r, if r.ok then cachePut req r c else c, true⟩
  | .error _ =>
    match cacheMatch req c with
    | some cr => ⟨cr, c, true⟩
    | none => ⟨offlineResponse, c, true⟩

/-- Result of documentStrategy: the value the async function resolves
with. The resolved value can be undefined (none), because the final
statement returns cache.match(OFFLINE_URL) behind a JS or-operator. -/
structure DocResult where
  resp : Option Response
  cache : Cache
deriving DecidableEq

/-- The catch block of documentStrategy (sw.js 138-154): try the core
cache for this request; otherwise the code evaluates
cache.match(OFFLINE_URL) or-else new Response(getOfflineHTML(), ...).
The left operand is a Promise object, which is always truthy, so the
or-arm with the inline offline HTML is dead code and the awaited result
is whatever cache.match(OFFLINE_URL) resolves to, possibly undefined. -/
def docFallback (req : String) (c : Cache) : DocResult :=
  match cacheMatch req c with
  | some cr => ⟨some cr, c⟩
  | none => ⟨cacheMatch OFFLINE_URL c, c⟩

/-- documentStrategy (sw.js 124-155), acting on the core namespace:
a 2xx network response is cached and returned; a non-2xx response is
turned into a thrown error, so it joins transport failures in the
fallback chain. -/
def documentStrategy (req : String) (c : Cache) (fr : FetchResult) : DocResult :=
  match fr with
  | .ok r => if r.ok then ⟨some r, cachePut req r c⟩ else docFallback req c
  | .error _ => docFallback req c

/-- The empty 404 response returned by cacheFirstStrategy on a transport
failure (sw.js 181-184): new Response with an empty string body. -/
def notFoundResponse : Response :=
  { status := 404
    statusText := "Not Found"
    body := ""
    contentType := some "text/plain;charset=UTF-8"
    date := none }

/-- cacheFirstStrategy (sw.js 158-186), acting on the core namespace:
return a cached entry immediately without fetching; on a miss fetch,
cache when ok, return the response; a transport failure yields the
empty 404 response. -/
def cacheFirstStrategy (req : String) (c : Cache) (fr : FetchResult) : StrategyResult :=
  match cacheMatch req c with
  | some cr => ⟨cr, c, false⟩
  | none =>
    match fr with
    | .ok r => ⟨r, if r.ok then cachePut req r c else c, true⟩
    | .error _ => ⟨notFoundResponse, c, true⟩

/-- Effects of one run of the install handler promise chain. -/
structure InstallEffects where
  coreCached : Bool
  skipWaitingCalled : Bool
deriving DecidableEq

/-- The install handler chain (sw.js 22-36):
caches.open(CACHE_NAME) then cache.addAll(CORE_CACHE_FILES) then
self.skipWaiting(), with a final catch that only logs. The inputs are
the outcomes of the open step and of the addAll population step; the
output is the promise handed to event.waitUntil. The catch handler
returns undefined, so a failed chain still resolves. -/
def installChain (openRes : Except Unit Unit) (addAllRes : Except Unit Unit) :
    Except Unit InstallEffects :=
  let chained : Except Unit InstallEffects :=
    openRes.bind fun _ => addAllRes.bind fun _ => .ok ⟨true, true⟩
  match chained with
  | .ok e => .ok e
  | .error _ => .ok ⟨false, false⟩

/-- Whether an Except value is a resolved promise. -/
def exceptOk {α : Type} (e : Except Unit α) : Bool :=
  match e with
  | .ok _ => true
  | .error _ => false

/-- The response synthesized by cacheFormData (sw.js 337):
new Response(JSON.stringify(formData)). A constructed Response with a
string body has status 200, empty statusText, an automatic text/plain
content type, and no date header. -/
def cacheFormDataResponse (fd : String) : Response :=
  { status := 200
    statusText := ""
    body := fd
    contentType := some "text/plain;charset=UTF-8"
    date := none }

/-- cacheFormData (sw.js 334-344): store the synthesized response in the
data namespace under a generated key (form- plus Date.now() plus a
random suffix; the key is a parameter here). -/
def cacheFormData (fd : String) (key : String) (c : Cache) : Cache :=
  cachePut key (cacheFormDataResponse fd) c

/-- maxAge constant of cleanupOldCache (sw.js 593): seven days in
milliseconds. -/
def maxAge : Int := 7 * 24 * 60 * 60 * 1000

/-- The loop of cleanupOldCache (sw.js 595-606) over the snapshot of
request keys: look the key up again, read the date header, delete the
entry when now minus the header time exceeds maxAge. A missing match
would throw on reading headers of undefined, and the surrounding catch
ends the pass with the cache as it stands. -/
def cleanupLoop (now : Int) : List String → Cache → Cache
  | [], c => c
  | k :: rest, c =>
    match cacheMatch k c with
    | none => c
    | some r =>
      match r.date with
      | none => cleanupLoop now rest c
      | some d =>
        if now - d > maxAge then cleanupLoop now rest (cacheDelete k c)
        else cleanupLoop now rest c

/-- cleanupOldCache (sw.js 588-610): iterate over the keys of the data
namespace and evict entries older than maxAge. -/
def cleanupOldCache (now : Int) (c : Cache) : Cache :=
  cleanupLoop now (c.map (fun e => e.1)) c

/-- The retention predicate cleanup enforces on one entry: kept when the
response has no date header or is not older than maxAge. -/
def keepEntry (now : Int) (e : String × Response) : Bool :=
  match e.2.date with
  | none => true
  | some d => !(now - d > maxAge)

/-- A concrete data-namespace entry captured one second past the
seven-day window before time 1700000000000 (C9 witness input). -/
def oldDataResponse : Response :=
  { status := 200
    statusText := "OK"
    body := "o"
    contentType := none
    date := some (1700000000000 - 7 * 24 * 60 * 60 * 1000 - 1000) }

/-- A concrete data-namespace entry captured six days before time
1700000000000 (C9 witness input). -/
def freshDataResponse : Response :=
  { status := 200
    statusText := "OK"
    body := "f"
    contentType := none
    date := some (1700000000000 - 6 * 24 * 60 * 60 * 1000) }

/-- The two-entry data namespace used in the C9 witness. -/
def boundaryCache : Cache :=
  [("old", oldDataResponse), ("fresh", freshDataResponse)]

/-- Lexicographic strict order on lists of code units: the order
IndexedDB uses on string keys, compared code unit by code unit with a
strict prefix sorting first. -/
def lexLt : List Nat → List Nat → Bool
  | _, [] => false
  | [], _ :: _ => true
  | a :: as, b :: bs => if a < b then true else if a = b then lexLt as bs else false

/-- Big-endian base-10 digits of n, padded to width w. For a value with
exactly w decimal digits this is the digit sequence of its decimal
representation. -/
def digitsBE : Nat → Nat → List Nat
  | 0, _ => []
  | w + 1, n => digitsBE w (n / 10) ++ [n % 10]

/-- Code units of the string literal form- used in generated ids. -/
def formTag : List Nat := [102, 111, 114, 109, 45]

/-- Code units of an id built by storeFormOffline (sw.js 420): the
template literal form-Date.now()-randomsuffix. Every Date.now() value
between Sep 2001 and Nov 2286 has exactly 13 decimal digits, so the
digit block is modelled at width 13. -/
def mkId (ts : Nat) (suffix : List Nat) : List Nat :=
  formTag ++ (digitsBE 13 ts).map (fun d => d + 48) ++ [45] ++ suffix

/-- A pending-forms record (sw.js 419-424): keyPath id, opaque payload
data, creation timestamp, status field. The id is kept as its list of
code units so the IndexedDB key order is explicit. -/
structure PendingForm where
  id : List Nat
  data : String
  timestamp : Nat
  status : String
deriving DecidableEq

/-- A completed-forms record: the store is created at sw.js 403-407
with timestamp and formType indices, but nothing in the source ever
writes such a record. -/
structure CompletedForm where
  id : List Nat
  data : String
  timestamp : Nat
  formType : String
deriving DecidableEq

/-- The SHFormDB database: the two object stores created by openDB
(sw.js 387-410). The pending list models the store content in ascending
id (key) order, which is the order getAll returns. -/
structure DB where
  pending : List PendingForm
  completed : List CompletedForm
deriving DecidableEq

/-- deleteStore.delete(id) on pending-forms (sw.js 218-220): drop the
record with this key; deleting an absent key succeeds and changes
nothing. -/
def deletePending (id : List Nat) (l : List PendingForm) : List PendingForm :=
  l.filter (fun r => decide (r.id ≠ id))

/-- The database-level removal performed on a successful replay: the
only queue-removal operation in the source (the success branch of
syncFormSubmissions deletes the pending record and does nothing else to
the stores). -/
def removePending (id : List Nat) (db : DB) : DB :=
  { db with pending := deletePending id db.pending }

/-- Result of one drain run: the final database, the notification tags
emitted, and the ids whose POST replay was attempted, in order. -/
structure SyncResult where
  db : DB
  notifications : List String
  attempts : List (List Nat)
deriving DecidableEq

/-- Whether a fetch outcome is a 2xx acknowledgment (response.ok). -/
def respOk (fr : FetchResult) : Bool :=
  match fr with
  | .ok r => r.ok
  | .error _ => false

/-- The loop of syncFormSubmissions (sw.js 207-236) over the getAll
snapshot: POST each payload; on a 2xx acknowledgment delete the record
from pending-forms and show a success notification; a non-2xx response
does nothing; a thrown fetch error is caught per entry and the loop
continues with the next entry. net maps the serialized payload to the
fetch outcome. -/
def syncLoop (net : String → FetchResult) : List PendingForm → DB → SyncResult
  | [], db => ⟨db, [], []⟩
  | f :: rest, db =>
    match net f.data with
    | .error _ =>
      let r := syncLoop net rest db
      ⟨r.db, r.notifications, f.id :: r.attempts⟩
    | .ok resp =>
      if resp.ok then
        let r := syncLoop net rest (removePending f.id db)
        ⟨r.db, "form-sync-success" :: r.notifications, f.id :: r.attempts⟩
      else
        let r := syncLoop net rest db
        ⟨r.db, r.notifications, f.id :: r.attempts⟩

/-- syncFormSubmissions (sw.js 198-240): read the pending snapshot with
getAll and drain it. -/
def syncFormSubmissions (net : String → FetchResult) (db : DB) : SyncResult :=
  syncLoop net db.pending db

/-- Ids of the snapshot entries whose replay is acknowledged 2xx. -/
def okIds (net : String → FetchResult) (l : List PendingForm) : List (List Nat) :=
  (l.filter (fun f => respOk (net f.data))).map (fun f => f.id)

/-- Adjacent-pairs check along a list. -/
def chainB {α : Type} (f : α → α → Bool) : List α → Bool
  | [] => true
  | [_] => true
  | a :: b :: rest => f a b && chainB f (b :: rest)

/-- A concrete 200 acknowledgment used in witnesses. -/
def ack200 : Response :=
  { status := 200
    statusText := "OK"
    body := ""
    contentType := none
    date := none }

/-- A concrete pending record used in the C1 and C8 inputs. -/
def pendingA : PendingForm :=
  ⟨mkId 1700000000000 [97], "payload-a", 1700000000000, "pending"⟩

/-- A second concrete pending record, created one millisecond later. -/
def pendingB : PendingForm :=
  ⟨mkId 1700000000001 [98], "payload-b", 1700000000001, "pending"⟩

/-- The two-record queue used in the C8 witness. -/
def syncDbW : DB := ⟨[pendingA, pendingB], []⟩

/-- The network of the C8 witness: delivery of the first payload fails
with a transport error, delivery of the second is acknowledged. -/
def syncNetW : String → FetchResult :=
  fun d => if d = "payload-a" then .error () else .ok ack200

/-- A concrete cached 200 response used in the C4 counterexample. -/
def cachedApiResponse : Response :=
  { status := 200
    statusText := "OK"
    body := "cached-data"
    contentType := some "application/json"
    date := none }

/-- A concrete 500 response used in the C4 counterexample. -/
def serverErrorResponse : Response :=
  { status := 500
    statusText := "Internal Server Error"
    body := ""
    contentType := none
    date := none }

end SW

namespace SW

/-- Claim C2: the document strategy is claimed to always return some
renderable document, even when the offline fallback page is absent from
the core namespace. The code evaluates at that very input to no response
at all: with a transport failure, an empty core cache (no entry for the
request and none for /offline.html), the strategy resolves with
undefined, because the or-arm holding the inline offline HTML is dead
behind a truthy Promise object. -/
theorem documentStrategy_missing_fallback_eval :
    documentStrategy "/page" [] (.error ()) = ⟨none, []⟩ := by
  rfl

/-- Claim C3, counterexample: with the open step succeeding and the core
population step failing, the install chain still resolves successfully
(the catch swallows the failure), with skipWaiting not called and the
core files not cached — the claim that the install operation is rejected
on population failure is false at this input. -/
theorem install_population_failure_not_rejected :
    exceptOk (installChain (.ok ()) (.error ())) = true ∧
    installChain (.ok ()) (.error ()) = .ok ⟨false, false⟩ := by
  exact ⟨rfl, rfl⟩

/-- Claim C3, amended: a population (or open) failure during install is
caught and logged; the promise given to event.waitUntil always resolves
successfully, so installation is never aborted; on failure skipWaiting
is not called and the core files are not cached, while on full success
both effects happen. -/
theorem installChain_never_rejects (o a : Except Unit Unit) :
    exceptOk (installChain o a) = true ∧
    ((o = .error () ∨ a = .error ()) → installChain o a = .ok ⟨false, false⟩) ∧
    (o = .ok () → a = .ok () → installChain o a = .ok ⟨true, true⟩) := by
  cases o with
  | ok u =>
    cases u
    cases a with
    | ok v => cases v; exact ⟨rfl, by rintro (h | h) <;> simp_all, fun _ _ => rfl⟩
    | error v => cases v; exact ⟨rfl, fun _ => rfl, by simp⟩
  | error u =>
    cases u
    cases a with
    | ok v => cases v; exact ⟨rfl, fun _ => rfl, by simp⟩
    | error v => cases v; exact ⟨rfl, fun _ => rfl, by simp⟩

/-- Witness for installChain_never_rejects at a concrete failing input. -/
theorem installChain_never_rejects_witness :
    exceptOk (installChain (.ok ()) (.ok ())) = true ∧
    installChain (.ok ()) (.ok ()) = .ok ⟨true, true⟩ := by
  exact ⟨(installChain_never_rejects (.ok ()) (.ok ())).1,
    (installChain_never_rejects (.ok ()) (.ok ())).2.2 rfl rfl⟩

/-- Claim C5: Cache-First returns a warm entry with the fetch function
never invoked and the cache untouched, regardless of what the network
would do; on a miss the network response is returned, a 2xx response
populates the namespace, a non-2xx response is not stored, and a
transport failure yields the empty 404 response rather than an error. -/
theorem cacheFirst_spec (req : String) (c : Cache) (fr : FetchResult) :
    (∀ cr, cacheMatch req c = some cr → cacheFirstStrategy req c fr = ⟨cr, c, false⟩) ∧
    (cacheMatch req c = none →
      (∀ r, (cacheFirstStrategy req c (.ok r)).fetched = true ∧
        (cacheFirstStrategy req c (.ok r)).resp = r ∧
        (r.ok = true → cacheMatch req (cacheFirstStrategy req c (.ok r)).cache = some r) ∧
        (r.ok = false → (cacheFirstStrategy req c (.ok r)).cache = c)) ∧
      cacheFirstStrategy req c (.error ()) = ⟨notFoundResponse, c, true⟩ ∧
      notFoundResponse.status = 404 ∧ notFoundResponse.body = "") := by
  constructor
  · intro cr h
    simp [cacheFirstStrategy, h]
  · intro h
    refine ⟨fun r => ?_, by simp [cacheFirstStrategy, h], rfl, rfl⟩
    refine ⟨by simp [cacheFirstStrategy, h], by simp [cacheFirstStrategy, h], ?_, ?_⟩
    · intro hok
      simp [cacheFirstStrategy, h, hok, cachePut, cacheMatch]
    · intro hnok
      simp [cacheFirstStrategy, h, hnok]

/-- Witness for cacheFirst_spec: a concrete warm cache returns the entry
without fetching. -/
theorem cacheFirst_spec_witness :
    cacheMatch "/app.js" [("/app.js", notFoundResponse)] = some notFoundResponse ∧
    cacheFirstStrategy "/app.js" [("/app.js", notFoundResponse)] (.error ()) =
      ⟨notFoundResponse, [("/app.js", notFoundResponse)], false⟩ := by
  exact ⟨rfl,
    (cacheFirst_spec "/app.js" [("/app.js", notFoundResponse)] (.error ())).1
      notFoundResponse rfl⟩

/-- Claim C4, counterexample: the claim says a non-2xx response is
treated as failure and the cached prior response is returned. At a
concrete input where the data namespace holds a prior 200 response for
the request and the network answers 500, networkFirstStrategy returns
the 500 response, not the cached one: only thrown transport failures
reach the cache-fallback arm. -/
theorem networkFirst_non2xx_returned_not_cached_cex :
    cacheMatch "/api/x" [("/api/x", cachedApiResponse)] = some cachedApiResponse ∧
    (networkFirstStrategy "/api/x" [("/api/x", cachedApiResponse)]
      (.ok serverErrorResponse)).resp = serverErrorResponse ∧
    serverErrorResponse ≠ cachedApiResponse := by
  refine ⟨rfl, rfl, ?_⟩
  decide

/-- Claim C4, amended: only a transport failure (rejected fetch) takes
the fallback arm: then a prior cached response for the same key is
returned when present, and otherwise the synthesized 503 response with
the JSON error/message body; a non-2xx network response is returned to
the caller unchanged and is not written to the cache. -/
theorem networkFirst_fallback_spec (req : String) (c : Cache) :
    (∀ r, (networkFirstStrategy req c (.ok r)).resp = r) ∧
    (∀ r, r.ok = false → (networkFirstStrategy req c (.ok r)).cache = c) ∧
    (∀ cr, cacheMatch req c = some cr →
      networkFirstStrategy req c (.error ()) = ⟨cr, c, true⟩) ∧
    (cacheMatch req c = none →
      networkFirstStrategy req c (.error ()) = ⟨offlineResponse, c, true⟩) ∧
    offlineResponse.status = 503 ∧ offlineResponse.body = offlineBody := by
  refine ⟨fun r => rfl, fun r h => ?_, fun cr h => ?_, fun h => ?_, rfl, rfl⟩
  · simp [networkFirstStrategy, h]
  · simp [networkFirstStrategy, h]
  · simp [networkFirstStrategy, h]

/-- Witness for networkFirst_fallback_spec: a transport failure with a
warm data cache returns the cached response; with a cold cache it
returns the synthesized 503 response. -/
theorem networkFirst_fallback_spec_witness :
    networkFirstStrategy "/api/x" [("/api/x", cachedApiResponse)] (.error ()) =
      ⟨cachedApiResponse, [("/api/x", cachedApiResponse)], true⟩ ∧
    networkFirstStrategy "/api/x" [] (.error ()) = ⟨offlineResponse, [], true⟩ := by
  exact ⟨(networkFirst_fallback_spec "/api/x" [("/api/x", cachedApiResponse)]).2.2.1
      cachedApiResponse rfl,
    (networkFirst_fallback_spec "/api/x" []).2.2.2.1 rfl⟩

/-- Membership in a cache after a put: the new entry or an old one. -/
theorem mem_cachePut {e : String × Response} {k : String} {r : Response} {c : Cache}
    (h : e ∈ cachePut k r c) : e = (k, r) ∨ e ∈ c := by
  rcases List.mem_cons.mp h with h₂ | h₂
  · exact Or.inl h₂
  · exact Or.inr (List.mem_filter.mp h₂).1

/-- Claim C6: every write of a response into a cache namespace — by
Network-First, Document-with-Fallback, Cache-First, or the
CACHE_FORM_DATA command — stores a 2xx response: any entry of the
resulting cache is either an old entry or has Response.ok true. -/
theorem only_ok_responses_written (req fd key : String) (c : Cache) (fr : FetchResult) :
    (∀ e ∈ (networkFirstStrategy req c fr).cache, e ∈ c ∨ e.2.ok = true) ∧
    (∀ e ∈ (documentStrategy req c fr).cache, e ∈ c ∨ e.2.ok = true) ∧
    (∀ e ∈ (cacheFirstStrategy req c fr).cache, e ∈ c ∨ e.2.ok = true) ∧
    (∀ e ∈ cacheFormData fd key c, e ∈ c ∨ e.2.ok = true) := by
  have hput : ∀ (k : String) (r : Response) (e : String × Response),
      r.ok = true → e ∈ cachePut k r c → e ∈ c ∨ e.2.ok = true := by
    intro k r e hr he
    rcases mem_cachePut he with h₂ | h₂
    · right; rw [h₂]; exact hr
    · exact Or.inl h₂
  refine ⟨?_, ?_, ?_, ?_⟩
  · intro e he
    cases fr with
    | ok r =>
      by_cases hr : r.ok = true
      · exact hput req r e hr (by simpa [networkFirstStrategy, hr] using he)
      · simp only [networkFirstStrategy, Bool.not_eq_true] at hr
        simp [networkFirstStrategy, hr] at he
        exact Or.inl he
    | error u =>
      cases u
      left
      simp only [networkFirstStrategy] at he
      cases h : cacheMatch req c <;> simp [h] at he <;> exact he
  · intro e he
    cases fr with
    | ok r =>
      by_cases hr : r.ok = true
      · exact hput req r e hr (by simpa [documentStrategy, hr] using he)
      · simp only [Bool.not_eq_true] at hr
        left
        simp only [documentStrategy, hr, Bool.false_eq_true, if_false] at he
        simp only [docFallback] at he
        cases h : cacheMatch req c <;> simp [h] at he <;> exact he
    | error u =>
      cases u
      left
      simp only [documentStrategy, docFallback] at he
      cases h : cacheMatch req c <;> simp [h] at he <;> exact he
  · intro e he
    simp only [cacheFirstStrategy] at he
    cases h : cacheMatch req c with
    | some cr => simp [h] at he; exact Or.inl he
    | none =>
      simp only [h] at he
      cases fr with
      | ok r =>
        by_cases hr : r.ok = true
        · exact hput req r e hr (by simpa [hr] using he)
        · simp only [Bool.not_eq_true] at hr
          simp [hr] at he
          exact Or.inl he
      | error u => cases u; simp at he; exact Or.inl he
  · intro e he
    exact hput key (cacheFormDataResponse fd) e rfl he

/-- Witness for only_ok_responses_written: the entry Cache-First stores
for a fresh 200 response in an empty cache is itself 2xx. -/
theorem only_ok_responses_written_witness :
    ("/app.js", cachedApiResponse) ∈ ([] : Cache) ∨ cachedApiResponse.ok = true := by
  exact (only_ok_responses_written "/app.js" "d" "k" [] (.ok cachedApiResponse)).2.2.1
    ("/app.js", cachedApiResponse) (by decide)

/-- The cleanup loop leaves a head entry alone when its key is not in
the remaining key snapshot. -/
theorem cleanupLoop_cons_not_mem (now : Int) (e : String × Response) :
    ∀ (ks : List String) (c : Cache), e.1 ∉ ks →
      cleanupLoop now ks (e :: c) = e :: cleanupLoop now ks c := by
  intro ks
  induction ks with
  | nil => intro c _; rfl
  | cons k rest ih =>
    intro c hk
    have hne : e.1 ≠ k := fun h => hk (h ▸ List.mem_cons_self k rest)
    have hrest : e.1 ∉ rest := fun h => hk (List.mem_cons_of_mem k h)
    have hmatch : cacheMatch k (e :: c) = cacheMatch k c := by
      cases e with
      | mk k₂ r => simp only [cacheMatch, if_neg hne]
    simp only [cleanupLoop, hmatch]
    cases h : cacheMatch k c with
    | none => rfl
    | some r =>
      dsimp only
      cases hd : r.date with
      | none => exact ih c hrest
      | some d =>
        dsimp only
        by_cases hage : now - d > maxAge
        · have hdel : cacheDelete k (e :: c) = e :: cacheDelete k c := by
            simp only [cacheDelete, List.filter_cons, decide_eq_true_eq]
            rw [if_pos hne]
          simp only [if_pos hage, hdel]
          exact ih (cacheDelete k c) hrest
        · simp only [if_neg hage]
          exact ih c hrest

/-- cleanupOldCache on a cache with pairwise distinct keys is exactly a
filter by the retention predicate. -/
theorem cleanupOldCache_eq_filter (now : Int) :
    ∀ (c : Cache), (c.map (fun e => e.1)).Nodup →
      cleanupOldCache now c = c.filter (keepEntry now) := by
  intro c
  induction c with
  | nil => intro _; rfl
  | cons e c ih =>
    intro hnodup
    rw [List.map_cons, List.nodup_cons] at hnodup
    obtain ⟨hhead, htail⟩ := hnodup
    have hself : cacheMatch e.1 (e :: c) = some e.2 := by
      cases e with
      | mk k r => simp [cacheMatch]
    have hfilter_c : c.filter (fun x => decide (x.1 ≠ e.1)) = c := by
      rw [List.filter_eq_self]
      intro x hx
      simp only [decide_eq_true_eq]
      intro hx1
      exact hhead (hx1 ▸ List.mem_map_of_mem (fun y => y.1) hx)
    simp only [cleanupOldCache, List.map_cons, cleanupLoop, hself]
    cases hd : e.2.date with
    | none =>
      rw [cleanupLoop_cons_not_mem now e _ c hhead]
      rw [show cleanupLoop now (c.map fun x => x.1) c = cleanupOldCache now c from rfl]
      rw [ih htail, List.filter_cons]
      have : keepEntry now e = true := by simp [keepEntry, hd]
      rw [this, if_pos rfl]
    | some d =>
      by_cases hage : now - d > maxAge
      · have hdel : cacheDelete e.1 (e :: c) = c := by
          cases e with
          | mk k r =>
            simp only [cacheDelete, List.filter_cons]
            rw [if_neg (by simp)]
            exact hfilter_c
        simp only [if_pos hage, hdel]
        rw [show cleanupLoop now (c.map fun x => x.1) c = cleanupOldCache now c from rfl]
        rw [ih htail, List.filter_cons]
        have : keepEntry now e = false := by
          simp only [keepEntry, hd, Bool.not_eq_true]
          simpa using hage
        rw [this]
        simp
      · simp only [if_neg hage]
        rw [cleanupLoop_cons_not_mem now e _ c hhead]
        rw [show cleanupLoop now (c.map fun x => x.1) c = cleanupOldCache now c from rfl]
        rw [ih htail, List.filter_cons]
        have : keepEntry now e = true := by
          simp only [keepEntry, hd, Bool.not_eq_true]
          simpa using hage
        rw [this, if_pos rfl]

/-- Claim C9: for every dated entry of the data namespace, periodic
cleanup deletes it exactly when its capture timestamp is older than the
seven-day window; in particular an entry captured at now minus 7 days
minus 1 second is deleted and an entry captured at now minus 6 days is
retained. -/
theorem cleanup_retention_boundary (now : Int) (c : Cache)
    (hnodup : (c.map (fun e => e.1)).Nodup) :
    (∀ k r d, (k, r) ∈ c → r.date = some d →
      ((k, r) ∈ cleanupOldCache now c ↔ now - d ≤ maxAge)) ∧
    (∀ k r, (k, r) ∈ c → r.date = some (now - 7 * 24 * 60 * 60 * 1000 - 1000) →
      (k, r) ∉ cleanupOldCache now c) ∧
    (∀ k r, (k, r) ∈ c → r.date = some (now - 6 * 24 * 60 * 60 * 1000) →
      (k, r) ∈ cleanupOldCache now c) := by
  have hmain : ∀ k r d, (k, r) ∈ c → r.date = some d →
      ((k, r) ∈ cleanupOldCache now c ↔ now - d ≤ maxAge) := by
    intro k r d hmem hdate
    rw [cleanupOldCache_eq_filter now c hnodup, List.mem_filter]
    have hk : keepEntry now (k, r) = true ↔ now - d ≤ maxAge := by
      simp [keepEntry, hdate, not_lt]
    constructor
    · intro h
      exact hk.mp h.2
    · intro h
      exact ⟨hmem, hk.mpr h⟩
  refine ⟨hmain, ?_, ?_⟩
  · intro k r hmem hdate
    intro hin
    have := (hmain k r _ hmem hdate).mp hin
    simp only [maxAge] at this
    omega
  · intro k r hmem hdate
    refine (hmain k r _ hmem hdate).mpr ?_
    simp only [maxAge]
    omega

/-- Witness for cleanup_retention_boundary at a concrete time and
two-entry cache: the entry one second past the window is evicted, the
six-day-old entry survives. -/
theorem cleanup_retention_boundary_witness :
    ("old", oldDataResponse) ∉ cleanupOldCache 1700000000000 boundaryCache ∧
    ("fresh", freshDataResponse) ∈ cleanupOldCache 1700000000000 boundaryCache := by
  constructor
  · exact (cleanup_retention_boundary 1700000000000 boundaryCache (by decide)).2.1
      "old" oldDataResponse (by simp [boundaryCache]) rfl
  · exact (cleanup_retention_boundary 1700000000000 boundaryCache (by decide)).2.2
      "fresh" freshDataResponse (by simp [boundaryCache]) rfl

/-- Claim C10: cleanup only deletes entries whose stored response has a
date header: any entry without one survives every pass regardless of
age; the CACHE_FORM_DATA command stores exactly such a synthesized
response (no date header), which the command places in the namespace. -/
theorem cleanup_retains_dateless (now : Int) (c : Cache) (fd key : String)
    (hnodup : (c.map (fun e => e.1)).Nodup) :
    (∀ k r, (k, r) ∈ c → r.date = none → (k, r) ∈ cleanupOldCache now c) ∧
    (cacheFormDataResponse fd).date = none ∧
    (key, cacheFormDataResponse fd) ∈ cacheFormData fd key c := by
  refine ⟨?_, rfl, List.mem_cons_self _ _⟩
  intro k r hmem hdate
  rw [cleanupOldCache_eq_filter now c hnodup, List.mem_filter]
  exact ⟨hmem, by simp [keepEntry, hdate]⟩

/-- Witness for cleanup_retains_dateless: a dateless entry written by
the CACHE_FORM_DATA model into an empty namespace survives a cleanup
pass run far in the future. -/
theorem cleanup_retains_dateless_witness :
    ("k1", cacheFormDataResponse "payload") ∈
      cleanupOldCache 99999999999999 (cacheFormData "payload" "k1" []) := by
  exact (cleanup_retains_dateless 99999999999999 (cacheFormData "payload" "k1" [])
    "payload" "k1" (by decide)).1 "k1" (cacheFormDataResponse "payload")
    (List.mem_cons_self _ _) rfl

/-- A drain run never touches the completed-forms store. -/
theorem syncLoop_completed (net : String → FetchResult) :
    ∀ (l : List PendingForm) (db : DB),
      (syncLoop net l db).db.completed = db.completed := by
  intro l
  induction l with
  | nil => intro db; rfl
  | cons f rest ih =>
    intro db
    cases h : net f.data with
    | error u =>
      simp only [syncLoop, h]
      exact ih db
    | ok resp =>
      by_cases hok : resp.ok = true
      · simp only [syncLoop, h, hok, if_true]
        exact ih (removePending f.id db)
      · simp only [Bool.not_eq_true] at hok
        simp only [syncLoop, h, hok, Bool.false_eq_true, if_false]
        exact ih db

/-- Unfolding okIds over the head of the snapshot. -/
theorem okIds_cons (net : String → FetchResult) (f : PendingForm) (rest : List PendingForm) :
    okIds net (f :: rest) =
      if respOk (net f.data) = true then f.id :: okIds net rest else okIds net rest := by
  by_cases h : respOk (net f.data) = true
  · simp [okIds, List.filter_cons, h]
  · simp only [Bool.not_eq_true] at h
    simp [okIds, List.filter_cons, h]

/-- After a drain over snapshot l, the pending store holds exactly the
records whose id is not among the acknowledged ids of the snapshot. -/
theorem syncLoop_pending (net : String → FetchResult) :
    ∀ (l : List PendingForm) (db : DB),
      (syncLoop net l db).db.pending =
        db.pending.filter (fun r => !((okIds net l).contains r.id)) := by
  intro l
  induction l with
  | nil =>
    intro db
    simp [syncLoop, okIds]
  | cons f rest ih =>
    intro db
    have hcons := okIds_cons net f rest
    cases h : net f.data with
    | error u =>
      have hro : respOk (net f.data) = false := by simp [respOk, h]
      rw [hro] at hcons
      simp only [Bool.false_eq_true, if_false] at hcons
      simp only [syncLoop, h, hcons]
      exact ih db
    | ok resp =>
      by_cases hok : resp.ok = true
      · have hro : respOk (net f.data) = true := by simp [respOk, h, hok]
        rw [hro, if_pos rfl] at hcons
        simp only [syncLoop, h, hok, if_true, hcons]
        rw [ih (removePending f.id db)]
        show (deletePending f.id db.pending).filter _ = _
        rw [deletePending, List.filter_filter]
        refine List.filter_congr ?_
        intro x _
        by_cases hx : x.id = f.id <;> simp [List.contains_cons, hx]
      · have hro : respOk (net f.data) = false := by
          simp only [Bool.not_eq_true] at hok
          simp [respOk, h, hok]
        rw [hro] at hcons
        simp only [Bool.false_eq_true, if_false] at hcons
        simp only [Bool.not_eq_true] at hok
        simp only [syncLoop, h, hok, Bool.false_eq_true, if_false, hcons]
        exact ih db

/-- Every snapshot entry gets a delivery attempt, in snapshot order,
regardless of the outcomes of the attempts before it. -/
theorem syncLoop_attempts (net : String → FetchResult) :
    ∀ (l : List PendingForm) (db : DB),
      (syncLoop net l db).attempts = l.map (fun f => f.id) := by
  intro l
  induction l with
  | nil => intro db; rfl
  | cons f rest ih =>
    intro db
    cases h : net f.data with
    | error u =>
      simp only [syncLoop, h, List.map_cons]
      rw [ih db]
    | ok resp =>
      by_cases hok : resp.ok = true
      · simp only [syncLoop, h, hok, if_true, List.map_cons]
        rw [ih (removePending f.id db)]
      · simp only [Bool.not_eq_true] at hok
        simp only [syncLoop, h, hok, Bool.false_eq_true, if_false, List.map_cons]
        rw [ih db]

/-- One success notification is emitted per acknowledged entry. -/
theorem syncLoop_notifications (net : String → FetchResult) :
    ∀ (l : List PendingForm) (db : DB),
      (syncLoop net l db).notifications.length =
        (l.filter (fun f => respOk (net f.data))).length := by
  intro l
  induction l with
  | nil => intro db; rfl
  | cons f rest ih =>
    intro db
    cases h : net f.data with
    | error u =>
      have hro : respOk (Except.error ()) = false := rfl
      simp only [syncLoop, h, List.filter_cons, hro, Bool.false_eq_true, if_false]
      exact ih db
    | ok resp =>
      by_cases hok : resp.ok = true
      · have hro : respOk (Except.ok resp) = true := by simp [respOk, hok]
        simp only [syncLoop, h, hok, if_true, List.filter_cons, hro, List.length_cons]
        rw [ih (removePending f.id db)]
      · simp only [Bool.not_eq_true] at hok
        have hro : respOk (Except.ok resp) = false := by simp [respOk, hok]
        simp only [syncLoop, h, hok, Bool.false_eq_true, if_false, List.filter_cons, hro]
        exact ih db

/-- Claim C7: queue removal is idempotent: removing the same id twice
is the same as removing it once, and removing an id that no pending
record carries (in particular, re-running the success-branch removal
after the record is already gone) leaves the database unchanged; the
operation is total, so no error is raised. -/
theorem removePending_idempotent (id : List Nat) (db : DB) :
    removePending id (removePending id db) = removePending id db ∧
    ((∀ f ∈ db.pending, f.id ≠ id) → removePending id db = db) := by
  constructor
  · cases db with
    | mk p comp =>
      simp only [removePending, deletePending]
      congr 1
      rw [List.filter_filter]
      refine List.filter_congr ?_
      intro x _
      simp
  · intro h
    cases db with
    | mk p comp =>
      simp only [removePending, deletePending]
      congr 1
      rw [List.filter_eq_self]
      intro a ha
      simpa using h a ha

/-- Witness for removePending_idempotent: removing an id that is not in
the queue leaves the concrete one-record database unchanged. -/
theorem removePending_idempotent_witness :
    removePending pendingB.id (DB.mk [pendingA] []) = DB.mk [pendingA] [] := by
  exact (removePending_idempotent pendingB.id (DB.mk [pendingA] [])).2 (by decide)

/-- Claim C1, counterexample: one pending record whose replay is
acknowledged with 200. The drain removes it from pending-forms and
emits the success notification, but the completed-forms store stays
empty: no CompletedSubmission record is inserted anywhere in the
source, so the record does not move to the completed collection. -/
theorem sync_no_completed_insert_cex :
    (syncFormSubmissions (fun _ => .ok ack200) (DB.mk [pendingA] [])).db.pending = [] ∧
    (syncFormSubmissions (fun _ => .ok ack200) (DB.mk [pendingA] [])).db.completed = [] ∧
    (syncFormSubmissions (fun _ => .ok ack200) (DB.mk [pendingA] [])).notifications =
      ["form-sync-success"] := by
  refine ⟨?_, rfl, rfl⟩
  decide

/-- Claim C1, amended: for every pending record whose replay POST is
acknowledged 2xx, the coordinator removes the pending record; when the
whole snapshot is acknowledged the pending count drops to zero and one
success notification is emitted per record; no CompletedSubmission is
inserted: the completed-forms store is left exactly as it was. -/
theorem sync_success_drain (net : String → FetchResult) (db : DB)
    (hall : ∀ f ∈ db.pending, respOk (net f.data) = true) :
    (syncFormSubmissions net db).db.pending = [] ∧
    (syncFormSubmissions net db).db.completed = db.completed ∧
    (syncFormSubmissions net db).notifications.length = db.pending.length := by
  refine ⟨?_, syncLoop_completed net db.pending db, ?_⟩
  · rw [show (syncFormSubmissions net db).db.pending =
      (syncLoop net db.pending db).db.pending from rfl]
    rw [syncLoop_pending net db.pending db, List.filter_eq_nil_iff]
    intro r hr
    have hmem : r.id ∈ okIds net db.pending := by
      have : db.pending.filter (fun f => respOk (net f.data)) = db.pending :=
        List.filter_eq_self.mpr hall
      simp only [okIds, this]
      exact List.mem_map_of_mem (fun f => f.id) hr
    simp [hmem]
  · rw [show (syncFormSubmissions net db).notifications =
      (syncLoop net db.pending db).notifications from rfl]
    rw [syncLoop_notifications net db.pending db, List.filter_eq_self.mpr hall]

/-- Witness for sync_success_drain at the concrete one-record queue
with an all-acknowledging network. -/
theorem sync_success_drain_witness :
    (syncFormSubmissions (fun _ => .ok ack200) (DB.mk [pendingB] [])).db.pending = [] ∧
    (syncFormSubmissions (fun _ => .ok ack200) (DB.mk [pendingB] [])).db.completed = [] ∧
    (syncFormSubmissions (fun _ => .ok ack200) (DB.mk [pendingB] [])).notifications.length =
      1 := by
  exact sync_success_drain (fun _ => .ok ack200) (DB.mk [pendingB] []) (by decide)

/-- Stripping a common prefix preserves lexLt. -/
theorem lexLt_append_left (p : List Nat) (a b : List Nat) :
    lexLt (p ++ a) (p ++ b) = lexLt a b := by
  induction p with
  | nil => rfl
  | cons x p ih =>
    show (if x < x then true else if x = x then lexLt (p ++ a) (p ++ b) else false) =
      lexLt a b
    rw [if_neg (lt_irrefl x), if_pos rfl]
    exact ih

/-- lexLt across equal-length leading blocks followed by tails. -/
theorem lexLt_append_append {a b : List Nat} (c d : List Nat) (h : a.length = b.length) :
    lexLt (a ++ c) (b ++ d) = true ↔
      lexLt a b = true ∨ (a = b ∧ lexLt c d = true) := by
  induction a generalizing b with
  | nil =>
    cases b with
    | nil => simp [lexLt]
    | cons y bs => exact absurd h (by simp)
  | cons x as ih =>
    cases b with
    | nil => exact absurd h (by simp)
    | cons y bs =>
      have hlen : as.length = bs.length := by simpa using h
      by_cases hxy : x < y
      · simp [lexLt, hxy]
      · by_cases hxe : x = y
        · subst hxe
          simp only [List.cons_append, lexLt, if_neg hxy, if_pos rfl, List.cons.injEq,
            true_and]
          exact ih hlen
        · simp [lexLt, hxy, hxe]

/-- The digit block has length w. -/
theorem digitsBE_length (w : Nat) : ∀ n, (digitsBE w n).length = w := by
  induction w with
  | zero => intro n; rfl
  | succ w ih => intro n; simp [digitsBE, ih]

/-- Equal digit blocks of equal width mean equal values below 10 ^ w. -/
theorem digitsBE_inj (w : Nat) : ∀ m n, m < 10 ^ w → n < 10 ^ w →
    digitsBE w m = digitsBE w n → m = n := by
  induction w with
  | zero =>
    intro m n hm hn _
    simp only [pow_zero] at hm hn
    omega
  | succ w ih =>
    intro m n hm hn h
    rw [pow_succ] at hm hn
    simp only [digitsBE] at h
    obtain ⟨h1, h2⟩ := List.append_inj h (by rw [digitsBE_length, digitsBE_length])
    have hm10 : m / 10 < 10 ^ w := by omega
    have hn10 : n / 10 < 10 ^ w := by omega
    have hdiv := ih (m / 10) (n / 10) hm10 hn10 h1
    have hmod : m % 10 = n % 10 := by simpa using h2
    omega

/-- Comparing equal-width digit blocks compares the values. -/
theorem lexLt_digitsBE (w : Nat) : ∀ m n, m < 10 ^ w → n < 10 ^ w →
    (lexLt (digitsBE w m) (digitsBE w n) = true ↔ m < n) := by
  induction w with
  | zero =>
    intro m n hm hn
    simp only [pow_zero] at hm hn
    have hm0 : m = 0 := by omega
    have hn0 : n = 0 := by omega
    subst hm0
    subst hn0
    simp [digitsBE, lexLt]
  | succ w ih =>
    intro m n hm hn
    rw [pow_succ] at hm hn
    have hm10 : m / 10 < 10 ^ w := by omega
    have hn10 : n / 10 < 10 ^ w := by omega
    simp only [digitsBE]
    rw [lexLt_append_append _ _ (by rw [digitsBE_length, digitsBE_length])]
    have hsingle : ∀ x y : Nat, lexLt [x] [y] = true ↔ x < y := by
      intro x y
      by_cases hxy : x < y
      · simp [lexLt, hxy]
      · by_cases hxe : x = y
        · simp [lexLt, hxy, hxe]
        · simp [lexLt, hxy, hxe]
    constructor
    · rintro (h | ⟨heq, h⟩)
      · have := (ih _ _ hm10 hn10).mp h
        omega
      · have hdiv := digitsBE_inj w _ _ hm10 hn10 heq
        have hmod : m % 10 < n % 10 := (hsingle _ _).mp h
        omega
    · intro h
      by_cases hdiv : m / 10 < n / 10
      · exact Or.inl ((ih _ _ hm10 hn10).mpr hdiv)
      · right
        have hdeq : m / 10 = n / 10 := by omega
        refine ⟨by rw [hdeq], (hsingle _ _).mpr ?_⟩
        omega

/-- Shifting every code unit by the same amount preserves lexLt. -/
theorem lexLt_map_add48 : ∀ (a b : List Nat),
    lexLt (a.map (fun d => d + 48)) (b.map (fun d => d + 48)) = lexLt a b := by
  intro a
  induction a with
  | nil => intro b; cases b <;> rfl
  | cons x as ih =>
    intro b
    cases b with
    | nil => rfl
    | cons y bs =>
      simp only [List.map_cons, lexLt]
      by_cases h1 : x < y
      · rw [if_pos (by omega), if_pos h1]
      · rw [if_neg (by omega), if_neg h1]
        by_cases h2 : x = y
        · rw [if_pos (by omega), if_pos h2]
          exact ih bs
        · rw [if_neg (by omega), if_neg h2]

/-- IndexedDB key order on well-formed generated ids respects the
embedded creation timestamp. -/
theorem mkId_le {t₁ t₂ : Nat} (s₁ s₂ : List Nat)
    (h₁ : t₁ < 10 ^ 13) (h₂ : t₂ < 10 ^ 13)
    (h : lexLt (mkId t₁ s₁) (mkId t₂ s₂) = true) : t₁ ≤ t₂ := by
  unfold mkId at h
  rw [List.append_assoc, List.append_assoc, List.append_assoc, List.append_assoc,
    lexLt_append_left] at h
  have hlen : ((digitsBE 13 t₁).map (fun d => d + 48)).length =
      ((digitsBE 13 t₂).map (fun d => d + 48)).length := by
    rw [List.length_map, List.length_map, digitsBE_length, digitsBE_length]
  rcases (lexLt_append_append _ _ hlen).mp h with h₃ | ⟨heq, _⟩
  · rw [lexLt_map_add48] at h₃
    exact le_of_lt ((lexLt_digitsBE 13 t₁ t₂ h₁ h₂).mp h₃)
  · have hinj48 : Function.Injective (fun d : Nat => d + 48) := by
      intro a b hab
      simp only [add_left_inj] at hab
      exact hab
    have hdig : digitsBE 13 t₁ = digitsBE 13 t₂ :=
      (List.map_injective_iff.mpr hinj48) heq
    exact le_of_eq (digitsBE_inj 13 t₁ t₂ h₁ h₂ hdig)

/-- chainB is preserved by pointwise implication over list members. -/
theorem chainB_imp {α : Type} {f g : α → α → Bool} :
    ∀ (l : List α), (∀ a ∈ l, ∀ b ∈ l, f a b = true → g a b = true) →
      chainB f l = true → chainB g l = true := by
  intro l
  induction l with
  | nil => intro _ _; rfl
  | cons a tail ih =>
    intro h hc
    cases tail with
    | nil => rfl
    | cons b rest =>
      simp only [chainB, Bool.and_eq_true] at hc ⊢
      refine ⟨h a (by simp) b (by simp) hc.1, ?_⟩
      refine ih ?_ hc.2
      intro x hx y hy hxy
      exact h x (List.mem_cons_of_mem a hx) y (List.mem_cons_of_mem a hy) hxy

/-- Claim C8: in a drain run over a getAll snapshot (records in
ascending id order) of well-formed records (distinct keys, ids built by
storeFormOffline from 13-digit creation timestamps, status pending),
every entry gets a delivery attempt in snapshot order, the snapshot
order is nondecreasing creation-timestamp order, and an entry whose
delivery fails (transport error or non-2xx) stays in the store as the
very same record, its status still pending, without blocking the
attempts for the entries after it. -/
theorem sync_order_and_isolation (net : String → FetchResult) (db : DB)
    (hsorted : chainB (fun a b => lexLt a.id b.id) db.pending = true)
    (hids : ∀ f ∈ db.pending, ∃ s, f.id = mkId f.timestamp s ∧
      10 ^ 12 ≤ f.timestamp ∧ f.timestamp < 10 ^ 13)
    (hinj : ∀ a ∈ db.pending, ∀ b ∈ db.pending, a.id = b.id → a = b)
    (hstatus : ∀ f ∈ db.pending, f.status = "pending") :
    (syncFormSubmissions net db).attempts = db.pending.map (fun f => f.id) ∧
    chainB (fun a b => decide (a.timestamp ≤ b.timestamp)) db.pending = true ∧
    ∀ f ∈ db.pending, respOk (net f.data) = false →
      f ∈ (syncFormSubmissions net db).db.pending ∧ f.status = "pending" := by
  refine ⟨syncLoop_attempts net db.pending db, ?_, ?_⟩
  · refine chainB_imp db.pending ?_ hsorted
    intro a ha b hb hab
    obtain ⟨sa, hida, _, hua⟩ := hids a ha
    obtain ⟨sb, hidb, _, hub⟩ := hids b hb
    rw [hida, hidb] at hab
    exact decide_eq_true (mkId_le sa sb hua hub hab)
  · intro f hf hfail
    have hnotin : f.id ∉ okIds net db.pending := by
      intro hin
      simp only [okIds] at hin
      obtain ⟨g, hg, hgid⟩ := List.mem_map.mp hin
      have hgmem := (List.mem_filter.mp hg).1
      have hgok := (List.mem_filter.mp hg).2
      rw [hinj g hgmem f hf hgid] at hgok
      rw [hfail] at hgok
      exact absurd hgok (by simp)
    refine ⟨?_, hstatus f hf⟩
    rw [show (syncFormSubmissions net db).db.pending =
      (syncLoop net db.pending db).db.pending from rfl]
    rw [syncLoop_pending net db.pending db, List.mem_filter]
    refine ⟨hf, ?_⟩
    simp [hnotin]

/-- Witness for sync_order_and_isolation at the concrete two-record
queue whose first delivery fails and second is acknowledged. -/
theorem sync_order_and_isolation_witness :
    (syncFormSubmissions syncNetW syncDbW).attempts =
      syncDbW.pending.map (fun f => f.id) ∧
    chainB (fun a b => decide (a.timestamp ≤ b.timestamp)) syncDbW.pending = true ∧
    (pendingA ∈ (syncFormSubmissions syncNetW syncDbW).db.pending ∧
      pendingA.status = "pending") := by
  have hids : ∀ f ∈ syncDbW.pending, ∃ s, f.id = mkId f.timestamp s ∧
      10 ^ 12 ≤ f.timestamp ∧ f.timestamp < 10 ^ 13 := by
    intro f hf
    simp only [syncDbW, List.mem_cons, List.not_mem_nil, or_false] at hf
    rcases hf with hf | hf
    · subst hf
      exact ⟨[97], rfl, by norm_num [pendingA], by norm_num [pendingA]⟩
    · subst hf
      exact ⟨[98], rfl, by norm_num [pendingB], by norm_num [pendingB]⟩
  have h := sync_order_and_isolation syncNetW syncDbW (by decide) hids
    (by decide) (by decide)
  exact ⟨h.1, h.2.1, h.2.2 pendingA (by simp [syncDbW]) (by decide)⟩

end SW
